import Mathlib

/-
Verification development for the MarketWatcher component
(market_watcher/market_watcher.cpp).

The definitions below are a shallow embedding of the C++ source.
Times of day are seconds since local midnight as Int values; logical
timestamps are Int; dates are Int day numbers; the external
collaborators (session tables, trading calendar, endpoint tables) are
an explicit Env record of oracle functions.
-/

namespace MarketWatcherModel

/-- Env bundles the external collaborators used by MarketWatcher.
Modelled from the spec: the session-table collaborator supplies, per
instrument, the list of session close instants and the ordered list of
trading time ranges; the trading-calendar collaborator supplies
isTradingDay and nextTradingDay; dayToEpoch fixes the trading day
epoch from the reported trading-day string. -/
structure Env where
  getEndPoints : String → List Int
  getTradingTimeRanges : String → List (Int × Int)
  isTradingDay : Int → Bool
  nextTradingDay : Int → Int
  dayToEpoch : String → Int

/-- Modelled from the spec: SessionClock. It carries the trading day
epoch and the early-morning cutoff: a within-day offset at or below
the cutoff is a continuation of the overnight session and maps to
epoch plus one day plus the offset, others to epoch plus the offset. -/
structure TimeMapper where
  tradingDayEpoch : Int
  nightCutoff : Int
deriving DecidableEq

def TimeMapper.mapSod (tm : TimeMapper) (secs : Int) : Int :=
  if secs ≤ tm.nightCutoff then tm.tradingDayEpoch + 86400 + secs
  else tm.tradingDayEpoch + secs

def TimeMapper.setTradingDay (env : Env) (tm : TimeMapper) (day : String) : TimeMapper :=
  { tm with tradingDayEpoch := env.dayToEpoch day }

/-- Modelled from the spec: hhmmssToSec parses an HH:MM:SS wall clock
time into seconds since midnight (datetime helper, not under src). -/
def hhmmssToSec (h m s : Int) : Int :=
  h * 3600 + m * 60 + s

/-- Modelled from the spec: SessionValidator state for one instrument,
the sorted flattened boundary list plus the last accepted final
timestamp (time_validator is not under src). -/
structure TimeValidator where
  timeSequence : List Int
  lastTime : Int
deriving DecidableEq

/-- Splits the flattened boundary list into consecutive start and end
pairs. -/
def toPairs : List Int → List (Int × Int)
  | a :: b :: rest => (a, b) :: toPairs rest
  | _ => []

def sessionContains (ts : List Int) (m : Int) : Bool :=
  (toPairs ts).any (fun p => decide (p.1 ≤ m ∧ m < p.2))

/-- Modelled from the spec: validate rejects when no boundaries are
loaded, when the mapped time is outside every session pair, or when
the combined timestamp does not strictly exceed the last accepted
one; otherwise it accepts, records and returns the final timestamp.
Rejection is reported as 0. -/
def TimeValidator.validate (v : TimeValidator) (mappedSecs ms : Int) :
    Int × TimeValidator :=
  if v.timeSequence = [] then (0, v)
  else if sessionContains v.timeSequence mappedSecs = false then (0, v)
  else
    let final := mappedSecs * 1000 + ms
    if final ≤ v.lastTime then (0, v)
    else (final, { v with lastTime := final })

/-- One depth market data record as delivered by the feed. -/
structure DepthMarketDataField where
  instrumentID : String
  updateH : Int
  updateM : Int
  updateS : Int
  updateMillisec : Int
  lastPrice : Int
  volume : Int
  askPrice1 : Int
  askVolume1 : Int
  bidPrice1 : Int
  bidVolume1 : Int
  actionDay : Int
deriving DecidableEq

/-- The payload of one newMarketData signal emission. -/
structure NewMarketDataEvent where
  instrumentID : String
  time : Int
  lastPrice : Int
  volume : Int
  askPrice1 : Int
  askVolume1 : Int
  bidPrice1 : Int
  bidVolume1 : Int
deriving DecidableEq

/-- First-match association list lookup, mirroring QMap value access. -/
def lookupV : List (String × TimeValidator) → String → Option TimeValidator
  | [], _ => none
  | p :: rest, k => if p.1 = k then some p.2 else lookupV rest k

/-- In-place update of the first entry with the given key, mirroring
mutation through the validator pointer held in the QMap. -/
def updV : List (String × TimeValidator) → String → TimeValidator →
    List (String × TimeValidator)
  | [], _, _ => []
  | p :: rest, k, v => if p.1 = k then (k, v) :: rest else p :: updV rest k v

/-- Buffer map access, mirroring QMap indexing which default
constructs an empty list for an absent key. -/
def getBuf : List (String × List DepthMarketDataField) → String →
    List DepthMarketDataField
  | [], _ => []
  | p :: rest, k => if p.1 = k then p.2 else getBuf rest k

/-- Buffer map assignment: replace the first entry with the key, or
append a fresh entry. -/
def setBuf : List (String × List DepthMarketDataField) → String →
    List DepthMarketDataField → List (String × List DepthMarketDataField)
  | [], k, v => [(k, v)]
  | p :: rest, k, v => if p.1 = k then (k, v) :: rest else p :: setBuf rest k v

/-- The MarketWatcher state: subscription set, validator table,
per-instrument save buffers, the scheduler tables armed by
setupTimers, the session clock, and bookkeeping flags. -/
structure MarketWatcher where
  subscribeSet : List String
  saveDepthMarketData : Bool
  timeValidators : List (String × TimeValidator)
  depthMarketDataListMap : List (String × List DepthMarketDataField)
  instrumentsToProcess : List (List String)
  saveBarTimePoints : List Int
  mapTime : TimeMapper
  currentTradingDay : String
  earliestTime : Int
  loggedIn : Bool
  elapsedMs : Int
deriving DecidableEq

/-- Per-range boundary collection of setupTimeValidators: a range
whose mapped start is not below earliestTime contributes its mapped
start and mapped end, otherwise nothing. -/
def collectTimes : List (Int × Int) → TimeMapper → Int → List Int
  | [], _, _ => []
  | r :: rest, tm, earliest =>
    (if earliest ≤ tm.mapSod r.1 then [tm.mapSod r.1, tm.mapSod r.2] else []) ++
      collectTimes rest tm earliest

def buildTimes (env : Env) (tm : TimeMapper) (earliest : Int) (i : String) : List Int :=
  collectTimes (env.getTradingTimeRanges i) tm earliest

/-- The validator table built by MarketWatcher::setupTimeValidators:
for each subscribed instrument, the surviving boundaries sorted; an
instrument with no surviving boundary gets no validator. -/
def setupTimeValidatorsFn (env : Env) : List String → TimeMapper → Int →
    List (String × TimeValidator)
  | [], _, _ => []
  | i :: rest, tm, earliest =>
    (if buildTimes env tm earliest i = [] then []
     else [(i, { timeSequence := List.insertionSort (· ≤ ·) (buildTimes env tm earliest i),
                 lastTime := 0 })]) ++ setupTimeValidatorsFn env rest tm earliest

/-- All session close instants over the subscription list, with
multiplicity, in subscription order. -/
def allEndPoints (env : Env) : List String → List Int
  | [] => []
  | i :: rest => env.getEndPoints i ++ allEndPoints env rest

/-- The instrument group attached to one close instant: every
subscribed instrument, once per occurrence of the instant in its
endpoint list, in subscription order. This mirrors how setupTimers
appends instrument ids into the QMap entry of each endpoint. -/
def groupAt (env : Env) : List String → Int → List String
  | [], _ => []
  | i :: rest, t =>
    (((env.getEndPoints i).filter (fun x => decide (x = t))).map (fun _ => i)) ++
      groupAt env rest t

/-- The result of MarketWatcher::setupTimers: the sorted distinct
close instants (the QMap keys), the parallel instrument groups, and
the armed time points, each close instant advanced by 60 seconds with
QTime wrap-around at midnight. -/
structure TimersResult where
  keys : List Int
  groups : List (List String)
  points : List Int
deriving DecidableEq

def setupTimersFn (env : Env) (subs : List String) : TimersResult :=
  let keys := List.insertionSort (· ≤ ·) (allEndPoints env subs).dedup
  { keys := keys
    groups := keys.map (groupAt env subs)
    points := keys.map (fun t => (t + 60) % 86400) }

def MarketWatcher.setupTimers (env : Env) (w : MarketWatcher) : MarketWatcher :=
  let r := setupTimersFn env w.subscribeSet
  { w with instrumentsToProcess := r.groups, saveBarTimePoints := r.points }

def MarketWatcher.setupTimeValidators (env : Env) (w : MarketWatcher) : MarketWatcher :=
  { w with timeValidators :=
      setupTimeValidatorsFn env w.subscribeSet w.mapTime w.earliestTime }

/-- The RSP_USER_LOGIN branch of MarketWatcher::customEvent: mark
logged in, and when the reported trading day differs from the
recorded one, set the trading day on the session clock, rebuild the
validator table and record the new day. -/
def MarketWatcher.handleUserLogin (env : Env) (w : MarketWatcher) (tradingDay : String) :
    MarketWatcher :=
  let w1 := { w with loggedIn := true }
  if w1.currentTradingDay ≠ tradingDay then
    let w2 := { w1 with mapTime := TimeMapper.setTradingDay env w1.mapTime tradingDay }
    let w3 := MarketWatcher.setupTimeValidators env w2
    { w3 with currentTradingDay := tradingDay }
  else w1

/-- QSet style insertion of a batch of instruments, keeping existing
members and appending unseen ones. -/
def insertAll (subs : List String) : List String → List String
  | [] => subs
  | i :: rest => insertAll (if i ∈ subs then subs else subs ++ [i]) rest

/-- MarketWatcher::subscribeInstruments: extend the subscription set,
rebuild the scheduler tables when persistence is enabled, and rebuild
the validator table when logged in. -/
def MarketWatcher.subscribeInstruments (env : Env) (w : MarketWatcher)
    (instruments : List String) : MarketWatcher :=
  let w1 := { w with subscribeSet := insertAll w.subscribeSet instruments }
  let w2 := if w1.saveDepthMarketData then MarketWatcher.setupTimers env w1 else w1
  if w2.loggedIn then MarketWatcher.setupTimeValidators env w2 else w2

/-- The within-day second count of a tick, as the source computes it
from the update time of the feed record. -/
def tickSec (f : DepthMarketDataField) : Int :=
  hhmmssToSec f.updateH f.updateM f.updateS

/-- MarketWatcher::processDepthMarketData: validate the tick through
the instrument validator, and on a strictly positive result emit the
newMarketData payload and, when persistence is enabled, append the
record with its action-day field overwritten by the elapsed local
time, to the per-instrument buffer. -/
def processDepthMarketData (w : MarketWatcher) (f : DepthMarketDataField) :
    MarketWatcher × Option NewMarketDataEvent :=
  match lookupV w.timeValidators f.instrumentID with
  | none => (w, none)
  | some v =>
    let res := v.validate (w.mapTime.mapSod (tickSec f)) f.updateMillisec
    let w2 := { w with timeValidators := updV w.timeValidators f.instrumentID res.2 }
    if 0 < res.1 then
      let ev : NewMarketDataEvent :=
        { instrumentID := f.instrumentID
          time := res.1
          lastPrice := f.lastPrice
          volume := f.volume
          askPrice1 := f.askPrice1
          askVolume1 := f.askVolume1
          bidPrice1 := f.bidPrice1
          bidVolume1 := f.bidVolume1 }
      if w.saveDepthMarketData then
        let newBuf := getBuf w2.depthMarketDataListMap f.instrumentID ++
          [{ f with actionDay := w.elapsedMs }]
        let newMap := setBuf w2.depthMarketDataListMap f.instrumentID newBuf
        ({ w2 with depthMarketDataListMap := newMap }, some ev)
      else (w2, some ev)
    else (w2, none)

/-- Processes a list of ticks in order, collecting the emitted
newMarketData events. -/
def runTicks (w : MarketWatcher) : List DepthMarketDataField →
    MarketWatcher × List NewMarketDataEvent
  | [] => (w, [])
  | f :: rest =>
    let r := processDepthMarketData w f
    let rr := runTicks r.1 rest
    (rr.1, r.2.toList ++ rr.2)

/-- The final timestamps of the emitted events of one instrument, in
emission order. -/
def acceptedTimes (I : String) (evs : List NewMarketDataEvent) : List Int :=
  (evs.filter (fun e => decide (e.instrumentID = I))).map NewMarketDataEvent.time

/-- The flush loop of MarketWatcher::timesUp over one instrument
group: each instrument with a non-empty buffer has the buffer written
out and cleared. Returns the new buffer map and the write list. -/
def flushLoop : List String → List (String × List DepthMarketDataField) →
    List (String × List DepthMarketDataField) × List (String × List DepthMarketDataField)
  | [], m => (m, [])
  | i :: rest, m =>
    if getBuf m i = [] then flushLoop rest m
    else
      let r := flushLoop rest (setBuf m i [])
      (r.1, (i, getBuf m i) :: r.2)

def MarketWatcher.flushGroup (w : MarketWatcher) (index : Nat) :
    MarketWatcher × List (String × List DepthMarketDataField) :=
  let r := flushLoop (w.instrumentsToProcess.getD index []) w.depthMarketDataListMap
  ({ w with depthMarketDataListMap := r.1 }, r.2)

/-- MarketWatcher::timesUp: on a non-trading day the buffers are
discarded, unless the previous day was a trading day, the next
trading day is two days ahead, and the local time is not after 05:00,
in which case (and on any trading day) the group with the fired index
is flushed. Local time is milliseconds since midnight; QTime five
oclock is 18000000. -/
def MarketWatcher.timesUp (env : Env) (w : MarketWatcher) (today : Int) (nowMs : Int)
    (index : Nat) : MarketWatcher × List (String × List DepthMarketDataField) :=
  if env.isTradingDay today = false then
    if ¬ (env.isTradingDay (today - 1) = true ∧ env.nextTradingDay today = today + 2) ∨
        18000000 < nowMs then
      ({ w with depthMarketDataListMap := [] }, [])
    else MarketWatcher.flushGroup w index
  else MarketWatcher.flushGroup w index

/-! Concrete instances used as witnesses and counterexamples -/

def tmFlat : TimeMapper :=
  { tradingDayEpoch := 0, nightCutoff := -1 }

def baseEnv : Env :=
  { getEndPoints := fun _ => []
    getTradingTimeRanges := fun _ => []
    isTradingDay := fun _ => true
    nextTradingDay := fun d => d + 1
    dayToEpoch := fun _ => 0 }

def envC2s : Env :=
  { baseEnv with getEndPoints := fun i =>
      if i = "I1" then [100] else if i = "I2" then [100] else if i = "I3" then [200] else [] }

def envC2c : Env :=
  { baseEnv with getEndPoints := fun i =>
      if i = "A" then [100, 200] else if i = "B" then [100] else [] }

def envC4c : Env :=
  { baseEnv with getEndPoints := fun i => if i = "A" then [86350, 36000] else [] }

def envW4 : Env :=
  { baseEnv with getEndPoints := fun i => if i = "A" then [100] else [] }

def envR : Env :=
  { baseEnv with getTradingTimeRanges := fun i => if i = "A" then [(50, 150)] else [] }

def envW7 : Env :=
  { baseEnv with getEndPoints := fun i => if i = "X" then [100] else [] }

def envC3 : Env :=
  { baseEnv with
    isTradingDay := fun d => decide (d ≠ 10)
    nextTradingDay := fun d => d + 2 }

def vW : TimeValidator :=
  { timeSequence := [0, 100000], lastTime := 0 }

def vW6 : TimeValidator :=
  { timeSequence := [50, 150], lastTime := 0 }

def wBase : MarketWatcher :=
  { subscribeSet := []
    saveDepthMarketData := false
    timeValidators := []
    depthMarketDataListMap := []
    instrumentsToProcess := []
    saveBarTimePoints := []
    mapTime := tmFlat
    currentTradingDay := ""
    earliestTime := 0
    loggedIn := false
    elapsedMs := 0 }

def fC1 : DepthMarketDataField :=
  { instrumentID := "A", updateH := 0, updateM := 0, updateS := 10, updateMillisec := 500
    lastPrice := 1, volume := 2, askPrice1 := 3, askVolume1 := 4, bidPrice1 := 5
    bidVolume1 := 6, actionDay := 0 }

def eC1 : NewMarketDataEvent :=
  { instrumentID := "A", time := 10500, lastPrice := 1, volume := 2, askPrice1 := 3
    askVolume1 := 4, bidPrice1 := 5, bidVolume1 := 6 }

def wC1 : MarketWatcher :=
  { wBase with timeValidators := [("A", vW)] }

def wC10s : MarketWatcher :=
  { wBase with timeValidators := [("A", vW)], saveDepthMarketData := true, elapsedMs := 777 }

def wC3 : MarketWatcher :=
  { wBase with
    saveDepthMarketData := true
    instrumentsToProcess := [["A"]]
    depthMarketDataListMap := [("A", [fC1])] }

def wC5 : MarketWatcher :=
  { wBase with
    subscribeSet := ["A"]
    saveDepthMarketData := true
    loggedIn := true
    currentTradingDay := "old" }

def wC9 : MarketWatcher :=
  { wBase with
    instrumentsToProcess := [["A", "B"]]
    depthMarketDataListMap := [("A", [fC1])] }

/-! Association list lemmas -/

theorem lookupV_updV_self (l : List (String × TimeValidator)) (k : String)
    (v : TimeValidator) :
    lookupV (updV l k v) k = (lookupV l k).map (fun _ => v) := by
  induction l with
  | nil => rfl
  | cons p rest ih =>
    by_cases h : p.1 = k
    · simp [updV, lookupV, h]
    · simp [updV, lookupV, h, ih]

theorem lookupV_updV_ne (l : List (String × TimeValidator)) (k : String)
    (v : TimeValidator) (j : String) (h : j ≠ k) :
    lookupV (updV l k v) j = lookupV l j := by
  induction l with
  | nil => rfl
  | cons p rest ih =>
    by_cases h2 : p.1 = k
    · subst h2
      simp [updV, lookupV, Ne.symm h]
    · simp only [updV, if_neg h2, lookupV, ih]

theorem getBuf_setBuf_self (m : List (String × List DepthMarketDataField)) (k : String)
    (v : List DepthMarketDataField) :
    getBuf (setBuf m k v) k = v := by
  induction m with
  | nil => simp [setBuf, getBuf]
  | cons p rest ih =>
    by_cases h : p.1 = k
    · simp [setBuf, getBuf, h]
    · simp [setBuf, getBuf, h, ih]

theorem getBuf_setBuf_ne (m : List (String × List DepthMarketDataField)) (k : String)
    (v : List DepthMarketDataField) (j : String) (h : j ≠ k) :
    getBuf (setBuf m k v) j = getBuf m j := by
  induction m with
  | nil => simp [setBuf, getBuf, Ne.symm h]
  | cons p rest ih =>
    by_cases h2 : p.1 = k
    · subst h2
      simp [setBuf, getBuf, Ne.symm h]
    · simp only [setBuf, if_neg h2, getBuf, ih]

/-! Validator lemmas -/

theorem validate_timeSequence (v : TimeValidator) (m ms : Int) :
    ((v.validate m ms).2).timeSequence = v.timeSequence := by
  simp only [TimeValidator.validate]
  split_ifs <;> rfl

theorem validate_lastTime_mono (v : TimeValidator) (m ms : Int) :
    v.lastTime ≤ ((v.validate m ms).2).lastTime := by
  simp only [TimeValidator.validate]
  split_ifs with h1 h2 h3
  · exact le_refl _
  · exact le_refl _
  · exact le_refl _
  · show v.lastTime ≤ m * 1000 + ms
    omega

theorem validate_pos (v : TimeValidator) (m ms : Int) (h : 0 < (v.validate m ms).1) :
    (v.validate m ms).1 = m * 1000 + ms ∧
    v.lastTime < m * 1000 + ms ∧
    ((v.validate m ms).2).lastTime = m * 1000 + ms ∧
    v.timeSequence ≠ [] ∧
    sessionContains v.timeSequence m = true := by
  simp only [TimeValidator.validate] at h ⊢
  split_ifs at h ⊢ with h1 h2 h3
  · simp at h
  · simp at h
  · simp at h
  · refine ⟨rfl, by omega, rfl, h1, ?_⟩
    cases hc : sessionContains v.timeSequence m
    · exact absurd hc h2
    · rfl

theorem validate_stale (v : TimeValidator) (m ms : Int) (h : m * 1000 + ms ≤ v.lastTime) :
    (v.validate m ms).1 = 0 := by
  simp only [TimeValidator.validate]
  split_ifs with h1 h2
  · rfl
  · rfl
  · rfl

/-! Tick processing lemmas -/

/-- The last accepted timestamp recorded for an instrument, 0 when it
has no validator. -/
def lastTimeOf (w : MarketWatcher) (I : String) : Int :=
  match lookupV w.timeValidators I with
  | some v => v.lastTime
  | none => 0

theorem lastTimeOf_some (w : MarketWatcher) (I : String) (v : TimeValidator)
    (hl : lookupV w.timeValidators I = some v) : lastTimeOf w I = v.lastTime := by
  unfold lastTimeOf
  rw [hl]

theorem process_none (w : MarketWatcher) (f : DepthMarketDataField)
    (hl : lookupV w.timeValidators f.instrumentID = none) :
    processDepthMarketData w f = (w, none) := by
  unfold processDepthMarketData
  simp only [hl]

theorem process_char (w : MarketWatcher) (f : DepthMarketDataField) (v : TimeValidator)
    (hl : lookupV w.timeValidators f.instrumentID = some v) :
    (processDepthMarketData w f).1.timeValidators =
      updV w.timeValidators f.instrumentID
        ((v.validate (w.mapTime.mapSod (tickSec f)) f.updateMillisec)).2 ∧
    (processDepthMarketData w f).1.mapTime = w.mapTime ∧
    ((processDepthMarketData w f).2 = none ↔
      (v.validate (w.mapTime.mapSod (tickSec f)) f.updateMillisec).1 ≤ 0) ∧
    (∀ e, (processDepthMarketData w f).2 = some e →
      e.instrumentID = f.instrumentID ∧
      e.time = (v.validate (w.mapTime.mapSod (tickSec f)) f.updateMillisec).1) := by
  unfold processDepthMarketData
  simp only [hl]
  split_ifs with hpos hsave
  · refine ⟨rfl, rfl, ?_, ?_⟩
    · simp
      omega
    · intro e he
      simp at he
      subst he
      exact ⟨rfl, rfl⟩
  · refine ⟨rfl, rfl, ?_, ?_⟩
    · simp
      omega
    · intro e he
      simp at he
      subst he
      exact ⟨rfl, rfl⟩
  · refine ⟨rfl, rfl, ?_, ?_⟩
    · simp
      omega
    · intro e he
      simp at he

theorem lastTimeOf_mono (w : MarketWatcher) (f : DepthMarketDataField) (I : String) :
    lastTimeOf w I ≤ lastTimeOf (processDepthMarketData w f).1 I := by
  cases hl : lookupV w.timeValidators f.instrumentID with
  | none => rw [process_none w f hl]
  | some v =>
    obtain ⟨htv, -, -, -⟩ := process_char w f v hl
    by_cases hI : I = f.instrumentID
    · subst hI
      have h2 : lookupV (processDepthMarketData w f).1.timeValidators f.instrumentID =
          some (v.validate (w.mapTime.mapSod (tickSec f)) f.updateMillisec).2 := by
        rw [htv, lookupV_updV_self, hl]
        rfl
      rw [lastTimeOf_some w _ v hl, lastTimeOf_some _ _ _ h2]
      exact validate_lastTime_mono v _ _
    · unfold lastTimeOf
      rw [htv, lookupV_updV_ne _ _ _ _ hI]

theorem process_emit_facts (w : MarketWatcher) (f : DepthMarketDataField)
    (e : NewMarketDataEvent) (h : (processDepthMarketData w f).2 = some e) :
    e.instrumentID = f.instrumentID ∧
    lastTimeOf w f.instrumentID < e.time ∧
    lastTimeOf (processDepthMarketData w f).1 f.instrumentID = e.time := by
  cases hl : lookupV w.timeValidators f.instrumentID with
  | none =>
    rw [process_none w f hl] at h
    simp at h
  | some v =>
    obtain ⟨htv, -, hnone, hsome⟩ := process_char w f v hl
    obtain ⟨heid, het⟩ := hsome e h
    have hpos : 0 < (v.validate (w.mapTime.mapSod (tickSec f)) f.updateMillisec).1 := by
      by_contra hn
      rw [hnone.mpr (by omega)] at h
      simp at h
    obtain ⟨hfst, hlt, hlast, -, -⟩ := validate_pos v _ _ hpos
    have h2 : lookupV (processDepthMarketData w f).1.timeValidators f.instrumentID =
        some (v.validate (w.mapTime.mapSod (tickSec f)) f.updateMillisec).2 := by
      rw [htv, lookupV_updV_self, hl]
      rfl
    refine ⟨heid, ?_, ?_⟩
    · rw [lastTimeOf_some w _ v hl]
      omega
    · rw [lastTimeOf_some _ _ _ h2]
      omega

theorem process_resend (w : MarketWatcher) (f : DepthMarketDataField)
    (e : NewMarketDataEvent) (h : (processDepthMarketData w f).2 = some e) :
    (processDepthMarketData (processDepthMarketData w f).1 f).2 = none := by
  cases hl : lookupV w.timeValidators f.instrumentID with
  | none =>
    rw [process_none w f hl] at h
    simp at h
  | some v =>
    obtain ⟨htv, hmt, hnone, hsome⟩ := process_char w f v hl
    have hpos : 0 < (v.validate (w.mapTime.mapSod (tickSec f)) f.updateMillisec).1 := by
      by_contra hn
      rw [hnone.mpr (by omega)] at h
      simp at h
    obtain ⟨hfst, hlt, hlast, -, -⟩ := validate_pos v _ _ hpos
    have hl2 : lookupV (processDepthMarketData w f).1.timeValidators f.instrumentID =
        some (v.validate (w.mapTime.mapSod (tickSec f)) f.updateMillisec).2 := by
      rw [htv, lookupV_updV_self, hl]
      rfl
    obtain ⟨-, -, hnone2, -⟩ := process_char (processDepthMarketData w f).1 f _ hl2
    refine hnone2.mpr ?_
    rw [hmt]
    have hstale := validate_stale
      ((v.validate (w.mapTime.mapSod (tickSec f)) f.updateMillisec)).2
      (w.mapTime.mapSod (tickSec f)) f.updateMillisec (by omega)
    omega

theorem chain_head_mono (a b : Int) (l : List Int) (hab : a ≤ b)
    (h : List.Chain' (· < ·) (b :: l)) : List.Chain' (· < ·) (a :: l) := by
  cases l with
  | nil => simp
  | cons c l2 =>
    rw [List.chain'_cons] at h ⊢
    exact ⟨lt_of_le_of_lt hab h.1, h.2⟩

theorem runTicks_chain (I : String) (ticks : List DepthMarketDataField) :
    ∀ (w : MarketWatcher),
    List.Chain' (· < ·) (lastTimeOf w I :: acceptedTimes I (runTicks w ticks).2) := by
  induction ticks with
  | nil =>
    intro w
    simp [runTicks, acceptedTimes]
  | cons f rest ih =>
    intro w
    cases hev : (processDepthMarketData w f).2 with
    | none =>
      have hlist : acceptedTimes I (runTicks w (f :: rest)).2 =
          acceptedTimes I (runTicks (processDepthMarketData w f).1 rest).2 := by
        simp [runTicks, hev, acceptedTimes]
      rw [hlist]
      exact chain_head_mono _ _ _ (lastTimeOf_mono w f I) (ih (processDepthMarketData w f).1)
    | some e =>
      have hfacts := process_emit_facts w f e hev
      by_cases hI : f.instrumentID = I
      · have hlist : acceptedTimes I (runTicks w (f :: rest)).2 =
            e.time :: acceptedTimes I (runTicks (processDepthMarketData w f).1 rest).2 := by
          simp [runTicks, hev, acceptedTimes, hfacts.1, hI]
        rw [hlist]
        have ihw := ih (processDepthMarketData w f).1
        have hlast : lastTimeOf (processDepthMarketData w f).1 I = e.time := by
          rw [← hI]
          exact hfacts.2.2
        rw [hlast] at ihw
        rw [List.chain'_cons]
        refine ⟨?_, ihw⟩
        rw [← hI]
        exact hfacts.2.1
      · have hlist : acceptedTimes I (runTicks w (f :: rest)).2 =
            acceptedTimes I (runTicks (processDepthMarketData w f).1 rest).2 := by
          simp [runTicks, hev, acceptedTimes, hfacts.1, hI]
        rw [hlist]
        exact chain_head_mono _ _ _ (lastTimeOf_mono w f I) (ih (processDepthMarketData w f).1)

/-! Scheduler construction lemmas -/

theorem mem_groupAt (env : Env) (subs : List String) (t : Int) (i : String) :
    i ∈ groupAt env subs t ↔ i ∈ subs ∧ t ∈ env.getEndPoints i := by
  induction subs with
  | nil => simp [groupAt]
  | cons j rest ih =>
    simp only [groupAt, List.mem_append, List.mem_map, List.mem_filter,
      decide_eq_true_eq, List.mem_cons, ih]
    constructor
    · rintro (⟨a, ⟨haEP, rfl⟩, rfl⟩ | ⟨hr, ht⟩)
      · exact ⟨Or.inl rfl, haEP⟩
      · exact ⟨Or.inr hr, ht⟩
    · rintro ⟨hj | hr, ht⟩
      · subst hj
        exact Or.inl ⟨t, ⟨ht, rfl⟩, rfl⟩
      · exact Or.inr ⟨hr, ht⟩

theorem timers_keys_eq (env : Env) (subs : List String) :
    (setupTimersFn env subs).keys =
      List.insertionSort (· ≤ ·) (allEndPoints env subs).dedup := rfl

theorem timers_groups_eq (env : Env) (subs : List String) :
    (setupTimersFn env subs).groups =
      (setupTimersFn env subs).keys.map (groupAt env subs) := rfl

theorem timers_points_eq (env : Env) (subs : List String) :
    (setupTimersFn env subs).points =
      (setupTimersFn env subs).keys.map (fun t => (t + 60) % 86400) := rfl

theorem mem_timers_keys (env : Env) (subs : List String) (t : Int) :
    t ∈ (setupTimersFn env subs).keys ↔ t ∈ allEndPoints env subs := by
  rw [timers_keys_eq, (List.perm_insertionSort (· ≤ ·) _).mem_iff, List.mem_dedup]

theorem timers_keys_sorted (env : Env) (subs : List String) :
    List.Sorted (· < ·) (setupTimersFn env subs).keys := by
  rw [timers_keys_eq]
  refine List.Sorted.lt_of_le (List.sorted_insertionSort _ _) ?_
  exact ((List.perm_insertionSort (· ≤ ·) _).nodup_iff).mpr (List.nodup_dedup _)

/-! Validator table construction lemmas -/

theorem lookupV_setupTimeValidatorsFn (env : Env) (subs : List String) (tm : TimeMapper)
    (earliest : Int) (i : String) :
    lookupV (setupTimeValidatorsFn env subs tm earliest) i =
      if i ∈ subs ∧ buildTimes env tm earliest i ≠ [] then
        some { timeSequence := List.insertionSort (· ≤ ·) (buildTimes env tm earliest i),
               lastTime := 0 }
      else none := by
  induction subs with
  | nil => simp [setupTimeValidatorsFn, lookupV]
  | cons j rest ih =>
    by_cases hj : j = i
    · subst hj
      by_cases hb : buildTimes env tm earliest j = []
      · simp only [setupTimeValidatorsFn, if_pos hb, List.nil_append, ih]
        by_cases hr : j ∈ rest
        · simp [hr, hb]
        · simp [hr, hb]
      · simp [setupTimeValidatorsFn, hb, lookupV]
    · by_cases hb : buildTimes env tm earliest j = []
      · simp only [setupTimeValidatorsFn, if_pos hb, List.nil_append, ih]
        simp [List.mem_cons, Ne.symm hj]
      · simp only [setupTimeValidatorsFn, if_neg hb, List.cons_append, List.nil_append,
          lookupV, if_neg hj, ih]
        simp [Ne.symm hj]

theorem mem_collectTimes (rs : List (Int × Int)) (tm : TimeMapper) (earliest : Int)
    (b : Int) :
    b ∈ collectTimes rs tm earliest ↔
      ∃ r, r ∈ rs ∧ earliest ≤ tm.mapSod r.1 ∧
        (b = tm.mapSod r.1 ∨ b = tm.mapSod r.2) := by
  induction rs with
  | nil => simp [collectTimes]
  | cons r rest ih =>
    simp only [collectTimes, List.mem_append, ih, List.mem_cons]
    by_cases hr : earliest ≤ tm.mapSod r.1
    · simp only [if_pos hr]
      constructor
      · rintro (hb | ⟨q, hq, hqe, hqb⟩)
        · exact ⟨r, Or.inl rfl, hr, by simpa using hb⟩
        · exact ⟨q, Or.inr hq, hqe, hqb⟩
      · rintro ⟨q, hq | hq, hqe, hqb⟩
        · subst hq
          exact Or.inl (by simpa using hqb)
        · exact Or.inr ⟨q, hq, hqe, hqb⟩
    · simp only [if_neg hr, List.not_mem_nil, false_or]
      constructor
      · rintro ⟨q, hq, hqe, hqb⟩
        exact ⟨q, Or.inr hq, hqe, hqb⟩
      · rintro ⟨q, hq | hq, hqe, hqb⟩
        · subst hq
          exact absurd hqe hr
        · exact ⟨q, hq, hqe, hqb⟩

/-! Flush loop lemmas -/

theorem flushLoop_spec (g : List String) :
    ∀ (m : List (String × List DepthMarketDataField)),
    (∀ i, i ∈ g → getBuf (flushLoop g m).1 i = []) ∧
    (∀ i, i ∉ g → getBuf (flushLoop g m).1 i = getBuf m i) ∧
    (∀ i, i ∈ g → getBuf m i ≠ [] → (i, getBuf m i) ∈ (flushLoop g m).2) ∧
    (∀ p, p ∈ (flushLoop g m).2 → p.1 ∈ g ∧ p.2 ≠ []) := by
  induction g with
  | nil =>
    intro m
    refine ⟨?_, ?_, ?_, ?_⟩ <;> simp [flushLoop]
  | cons j rest ih =>
    intro m
    by_cases hj : getBuf m j = []
    · have hfl : flushLoop (j :: rest) m = flushLoop rest m := by
        simp [flushLoop, hj]
      obtain ⟨ih1, ih2, ih3, ih4⟩ := ih m
      rw [hfl]
      refine ⟨?_, ?_, ?_, ?_⟩
      · intro i hi
        rcases List.mem_cons.mp hi with rfl | hr
        · by_cases hjr : i ∈ rest
          · exact ih1 i hjr
          · rw [ih2 i hjr]
            exact hj
        · exact ih1 i hr
      · intro i hi
        exact ih2 i (fun hr => hi (List.mem_cons_of_mem j hr))
      · intro i hi hne
        rcases List.mem_cons.mp hi with rfl | hr
        · exact absurd hj hne
        · exact ih3 i hr hne
      · intro p hp
        obtain ⟨h1, h2⟩ := ih4 p hp
        exact ⟨List.mem_cons_of_mem j h1, h2⟩
    · have hfl : flushLoop (j :: rest) m =
          ((flushLoop rest (setBuf m j [])).1,
            (j, getBuf m j) :: (flushLoop rest (setBuf m j [])).2) := by
        simp [flushLoop, hj]
      obtain ⟨ih1, ih2, ih3, ih4⟩ := ih (setBuf m j [])
      rw [hfl]
      refine ⟨?_, ?_, ?_, ?_⟩
      · intro i hi
        rcases List.mem_cons.mp hi with rfl | hr
        · by_cases hjr : i ∈ rest
          · exact ih1 i hjr
          · rw [ih2 i hjr]
            exact getBuf_setBuf_self m i []
        · exact ih1 i hr
      · intro i hi
        have hij : i ≠ j := fun he => hi (he ▸ List.mem_cons_self j rest)
        rw [ih2 i (fun hr => hi (List.mem_cons_of_mem j hr))]
        exact getBuf_setBuf_ne m j [] i hij
      · intro i hi hne
        rcases List.mem_cons.mp hi with rfl | hr
        · exact List.mem_cons_self _ _
        · by_cases hij : i = j
          · subst hij
            exact List.mem_cons_self _ _
          · refine List.mem_cons_of_mem _ ?_
            have : getBuf (setBuf m j []) i = getBuf m i := getBuf_setBuf_ne m j [] i hij
            rw [← this] at hne ⊢
            exact ih3 i hr hne
      · intro p hp
        rcases List.mem_cons.mp hp with rfl | hr
        · exact ⟨List.mem_cons_self _ _, hj⟩
        · obtain ⟨h1, h2⟩ := ih4 p hr
          exact ⟨List.mem_cons_of_mem j h1, h2⟩

/-! Claim theorems -/

/-- C1: for every instrument and every sequence of processed ticks,
the final timestamps of accepted ticks (those for which
processDepthMarketData emits newMarketData) are strictly increasing,
and processing the exact same tick again right after an accepted one
is rejected. -/
theorem c1_accepted_timestamps_strictly_increasing :
    (∀ (w : MarketWatcher) (ticks : List DepthMarketDataField) (I : String),
      List.Chain' (· < ·) (acceptedTimes I (runTicks w ticks).2)) ∧
    (∀ (w : MarketWatcher) (f : DepthMarketDataField) (e : NewMarketDataEvent),
      (processDepthMarketData w f).2 = some e →
      (processDepthMarketData (processDepthMarketData w f).1 f).2 = none) := by
  constructor
  · intro w ticks I
    exact (runTicks_chain I ticks w).tail
  · intro w f e h
    exact process_resend w f e h

/-- C1 witness: a concrete accepted tick whose immediate resend is
rejected. -/
theorem c1_witness :
    (processDepthMarketData wC1 fC1).2 = some eC1 ∧
    (processDepthMarketData (processDepthMarketData wC1 fC1).1 fC1).2 = none :=
  ⟨by decide, c1_accepted_timestamps_strictly_increasing.2 wC1 fC1 eC1 (by decide)⟩

/-- C2 (amended): the scheduler groups instruments by single trigger
instant, not by full schedule: the group of an instant consists
exactly of the subscribed instruments whose endpoint list contains
that instant; instruments with identical endpoint lists belong to
exactly the same groups; and in the three-instrument scenario with
two shared close times exactly two instants are armed and the shared
instant dispatches to the group holding the two sharing instruments
and not the third. -/
theorem c2_instant_groups :
    (∀ (env : Env) (subs : List String) (t : Int) (i : String),
      i ∈ groupAt env subs t ↔ i ∈ subs ∧ t ∈ env.getEndPoints i) ∧
    (∀ (env : Env) (subs : List String) (i j : String),
      env.getEndPoints i = env.getEndPoints j → i ∈ subs → j ∈ subs →
      ∀ g, g ∈ (setupTimersFn env subs).groups → (i ∈ g ↔ j ∈ g)) ∧
    ((setupTimersFn envC2s ["I1", "I2", "I3"]).keys = [100, 200] ∧
      (setupTimersFn envC2s ["I1", "I2", "I3"]).groups = [["I1", "I2"], ["I3"]]) := by
  refine ⟨mem_groupAt, ?_, by decide, by decide⟩
  intro env subs i j hEP hi hj g hg
  rw [timers_groups_eq] at hg
  obtain ⟨t, ht, rfl⟩ := List.mem_map.mp hg
  rw [mem_groupAt, mem_groupAt, hEP]
  simp [hi, hj]

/-- C2 witness: in the three-instrument scenario the two instruments
with identical schedules are members of exactly the same groups. -/
theorem c2_witness :
    "I1" ∈ (["I1", "I2"] : List String) ↔ "I2" ∈ (["I1", "I2"] : List String) :=
  c2_instant_groups.2.1 envC2s ["I1", "I2", "I3"] "I1" "I2" (by decide) (by decide)
    (by decide) ["I1", "I2"] (by decide)

/-- C2 counterexample: with endpoints A at 100 and 200, B at 100 only,
instrument A is a member of two distinct groups, so the groups do not
partition instruments by exact schedule, and the group fired at the
shared instant contains both A and B although their schedules
differ. -/
theorem c2_counterexample :
    (setupTimersFn envC2c ["A", "B"]).groups = [["A", "B"], ["A"]] ∧
    envC2c.getEndPoints "A" ≠ envC2c.getEndPoints "B" ∧
    "A" ∈ (["A", "B"] : List String) ∧ "A" ∈ (["A"] : List String) := by
  decide

/-- C4 (amended): every armed point is a close time plus 60 seconds
reduced modulo one day; the keys are exactly the distinct close times
in ascending order; and when no close time lies in the last minute of
the day the armed points are exactly the close times plus 60 seconds
and are armed in ascending order. -/
theorem c4_armed_points (env : Env) (subs : List String) :
    (∀ p, p ∈ (setupTimersFn env subs).points →
      ∃ t, t ∈ allEndPoints env subs ∧ p = (t + 60) % 86400) ∧
    (∀ t, t ∈ (setupTimersFn env subs).keys ↔ t ∈ allEndPoints env subs) ∧
    List.Sorted (· < ·) (setupTimersFn env subs).keys ∧
    ((∀ t, t ∈ allEndPoints env subs → 0 ≤ t ∧ t + 60 < 86400) →
      List.Sorted (· < ·) (setupTimersFn env subs).points ∧
      ∀ p, p ∈ (setupTimersFn env subs).points →
        ∃ t, t ∈ allEndPoints env subs ∧ p = t + 60) := by
  have hmemp : ∀ p, p ∈ (setupTimersFn env subs).points →
      ∃ t, t ∈ allEndPoints env subs ∧ p = (t + 60) % 86400 := by
    intro p hp
    rw [timers_points_eq] at hp
    obtain ⟨t, ht, rfl⟩ := List.mem_map.mp hp
    exact ⟨t, (mem_timers_keys env subs t).mp ht, rfl⟩
  refine ⟨hmemp, mem_timers_keys env subs, timers_keys_sorted env subs, ?_⟩
  intro hb
  have hmod : ∀ t, t ∈ (setupTimersFn env subs).keys → (t + 60) % 86400 = t + 60 := by
    intro t ht
    obtain ⟨h0, h1⟩ := hb t ((mem_timers_keys env subs t).mp ht)
    exact Int.emod_eq_of_lt (by omega) h1
  constructor
  · rw [timers_points_eq]
    rw [List.Sorted, List.pairwise_map]
    refine List.Pairwise.imp_of_mem ?_ (timers_keys_sorted env subs)
    intro a b ha hbm hab
    rw [hmod a ha, hmod b hbm]
    omega
  · intro p hp
    rw [timers_points_eq] at hp
    obtain ⟨t, ht, rfl⟩ := List.mem_map.mp hp
    exact ⟨t, (mem_timers_keys env subs t).mp ht, (hmod t ht)⟩

/-- C4 witness: with the single close time 100 the armed points are
sorted and the armed point 160 is a close time plus 60 seconds. -/
theorem c4_witness :
    List.Sorted (· < ·) (setupTimersFn envW4 ["A"]).points ∧
    ∃ t, t ∈ allEndPoints envW4 ["A"] ∧ (160 : Int) = t + 60 :=
  ⟨((c4_armed_points envW4 ["A"]).2.2.2 (by decide)).1,
    ((c4_armed_points envW4 ["A"]).2.2.2 (by decide)).2 160 (by decide)⟩

/-- C4 counterexample: a close time in the last minute of the day
wraps around midnight, so the armed instants are neither ascending
nor equal to a close time plus 60 seconds. -/
theorem c4_counterexample :
    (setupTimersFn envC4c ["A"]).points = [36060, 10] ∧
    (10 : Int) < 36060 ∧
    ¬ (10 : Int) = 36000 + 60 ∧ ¬ (10 : Int) = 86350 + 60 ∧
    allEndPoints envC4c ["A"] = [86350, 36000] := by
  decide

/-- C6 (amended): a validator exists exactly when some session range
of the instrument survives; its boundary list is the sorted flattened
list of mapped start and end instants of exactly those ranges whose
mapped start is not earlier than EarliestAcceptableTime, the whole
pair of a range being dropped when its mapped start is earlier. -/
theorem c6_validator_boundaries (env : Env) (subs : List String) (tm : TimeMapper)
    (earliest : Int) (i : String) (v : TimeValidator)
    (h : lookupV (setupTimeValidatorsFn env subs tm earliest) i = some v) :
    List.Sorted (· ≤ ·) v.timeSequence ∧
    (∀ b, b ∈ v.timeSequence ↔
      ∃ r, r ∈ env.getTradingTimeRanges i ∧ earliest ≤ tm.mapSod r.1 ∧
        (b = tm.mapSod r.1 ∨ b = tm.mapSod r.2)) ∧
    v.timeSequence ≠ [] := by
  rw [lookupV_setupTimeValidatorsFn] at h
  by_cases hc : i ∈ subs ∧ buildTimes env tm earliest i ≠ []
  · rw [if_pos hc] at h
    have hv := Option.some.inj h
    subst hv
    refine ⟨?_, ?_, ?_⟩
    · show List.Sorted (· ≤ ·) (List.insertionSort (· ≤ ·) (buildTimes env tm earliest i))
      exact List.sorted_insertionSort _ _
    · intro b
      show b ∈ List.insertionSort (· ≤ ·) (buildTimes env tm earliest i) ↔ _
      rw [(List.perm_insertionSort (· ≤ ·) _).mem_iff]
      exact mem_collectTimes _ tm earliest b
    · obtain ⟨x, hx⟩ := List.exists_mem_of_ne_nil _ hc.2
      have hxs : x ∈ List.insertionSort (· ≤ ·) (buildTimes env tm earliest i) :=
        ((List.perm_insertionSort (· ≤ ·) _).mem_iff).mpr hx
      show List.insertionSort (· ≤ ·) (buildTimes env tm earliest i) ≠ []
      exact List.ne_nil_of_mem hxs
  · rw [if_neg hc] at h
    exact absurd h (by simp)

/-- C6 witness: a surviving range yields the sorted boundary list, and
the end boundary 150 belongs to it because the mapped start of its
range is not below the floor. -/
theorem c6_witness :
    List.Sorted (· ≤ ·) vW6.timeSequence ∧
    ((150 : Int) ∈ vW6.timeSequence ↔
      ∃ r, r ∈ envR.getTradingTimeRanges "A" ∧ (0 : Int) ≤ tmFlat.mapSod r.1 ∧
        ((150 : Int) = tmFlat.mapSod r.1 ∨ (150 : Int) = tmFlat.mapSod r.2)) ∧
    vW6.timeSequence ≠ [] :=
  ⟨(c6_validator_boundaries envR ["A"] tmFlat 0 "A" vW6 (by decide)).1,
    (c6_validator_boundaries envR ["A"] tmFlat 0 "A" vW6 (by decide)).2.1 150,
    (c6_validator_boundaries envR ["A"] tmFlat 0 "A" vW6 (by decide)).2.2⟩

/-- C6 counterexample: the range from 50 to 150 with floor 100 is
dropped as a whole pair, so the boundary 150, although not earlier
than the floor, is not retained and the instrument gets no validator
at all; the claim that every boundary not earlier than the floor is
retained is false. -/
theorem c6_counterexample :
    lookupV (setupTimeValidatorsFn envR ["A"] tmFlat 100) "A" = none ∧
    tmFlat.mapSod 150 = 150 ∧ (100 : Int) ≤ 150 ∧
    envR.getTradingTimeRanges "A" = [(50, 150)] := by
  decide

/-- C7: an instrument with no surviving session boundary gets no
validator, a tick whose instrument has no validator is dropped with
the state unchanged, and an instrument with no endpoints belongs to
no scheduler group. -/
theorem c7_empty_session_rejects (env : Env) (subs : List String) (tm : TimeMapper)
    (earliest : Int) (w : MarketWatcher) (f : DepthMarketDataField) (i : String) :
    (buildTimes env tm earliest i = [] →
      lookupV (setupTimeValidatorsFn env subs tm earliest) i = none) ∧
    (lookupV w.timeValidators f.instrumentID = none →
      processDepthMarketData w f = (w, none)) ∧
    (env.getEndPoints i = [] →
      ∀ g, g ∈ (setupTimersFn env subs).groups → i ∉ g) := by
  refine ⟨?_, process_none w f, ?_⟩
  · intro hb
    rw [lookupV_setupTimeValidatorsFn]
    simp [hb]
  · intro hEP g hg hig
    rw [timers_groups_eq] at hg
    obtain ⟨t, ht, rfl⟩ := List.mem_map.mp hg
    rw [mem_groupAt, hEP] at hig
    exact absurd hig.2 (List.not_mem_nil t)

/-- C7 witness: instrument Z with empty session table gets no
validator, its ticks leave the state unchanged, and it is in no
group of the armed scheduler. -/
theorem c7_witness :
    lookupV (setupTimeValidatorsFn envW7 ["Z"] tmFlat 0) "Z" = none ∧
    processDepthMarketData wBase fC1 = (wBase, none) ∧
    "A" ∉ (["X"] : List String) :=
  ⟨(c7_empty_session_rejects envW7 ["Z"] tmFlat 0 wBase fC1 "Z").1 (by decide),
    (c7_empty_session_rejects envW7 ["Z"] tmFlat 0 wBase fC1 "Z").2.1 (by decide),
    (c7_empty_session_rejects envW7 ["X"] tmFlat 0 wBase fC1 "A").2.2 (by decide)
      ["X"] (by decide)⟩

/-- C8: rebuilding the validator table and the scheduler tables twice
in a row with unchanged inputs yields the identical validator table,
identical groups and identical armed points as a single rebuild. -/
theorem c8_rebuild_idempotent (env : Env) (w : MarketWatcher) :
    (MarketWatcher.setupTimeValidators env
        (MarketWatcher.setupTimeValidators env w)).timeValidators =
      (MarketWatcher.setupTimeValidators env w).timeValidators ∧
    (MarketWatcher.setupTimers env (MarketWatcher.setupTimers env w)).instrumentsToProcess =
      (MarketWatcher.setupTimers env w).instrumentsToProcess ∧
    (MarketWatcher.setupTimers env (MarketWatcher.setupTimers env w)).saveBarTimePoints =
      (MarketWatcher.setupTimers env w).saveBarTimePoints ∧
    MarketWatcher.setupTimeValidators env (MarketWatcher.setupTimeValidators env w) =
      MarketWatcher.setupTimeValidators env w ∧
    MarketWatcher.setupTimers env (MarketWatcher.setupTimers env w) =
      MarketWatcher.setupTimers env w :=
  ⟨rfl, rfl, rfl, rfl, rfl⟩

/-- C3 (amended): on a non-trading day a scheduler firing discards all
buffers without writing, unless the previous day is a trading day and
the next trading day is two days ahead (the normal-Saturday
settlement case) and the current local time is at or before 05:00, in
which case the firing performs the normal flush. Strictly after 05:00
the same firing discards the buffers. -/
theorem c3_nontrading_discard (env : Env) (w : MarketWatcher) (today nowMs : Int)
    (index : Nat) (h : env.isTradingDay today = false) :
    ((¬ (env.isTradingDay (today - 1) = true ∧ env.nextTradingDay today = today + 2) ∨
        18000000 < nowMs) →
      MarketWatcher.timesUp env w today nowMs index =
        ({ w with depthMarketDataListMap := [] }, [])) ∧
    ((env.isTradingDay (today - 1) = true ∧ env.nextTradingDay today = today + 2) →
      nowMs ≤ 18000000 →
      MarketWatcher.timesUp env w today nowMs index =
        MarketWatcher.flushGroup w index) := by
  constructor
  · intro hc
    unfold MarketWatcher.timesUp
    rw [if_pos h, if_pos hc]
  · intro hsat hle
    unfold MarketWatcher.timesUp
    rw [if_pos h, if_neg ?_]
    push_neg
    exact ⟨hsat, by omega⟩

/-- C3 witness: one firing strictly after 05:00 discards, one firing
before 05:00 on the normal Saturday flushes. -/
theorem c3_witness :
    MarketWatcher.timesUp envC3 wC3 10 18000001 0 =
      ({ wC3 with depthMarketDataListMap := [] }, []) ∧
    MarketWatcher.timesUp envC3 wC3 10 17000000 0 = MarketWatcher.flushGroup wC3 0 :=
  ⟨(c3_nontrading_discard envC3 wC3 10 18000001 0 (by decide)).1 (Or.inr (by decide)),
    (c3_nontrading_discard envC3 wC3 10 17000000 0 (by decide)).2 (by decide) (by decide)⟩

/-- C3 counterexample: at exactly 05:00 local time, which is not
before 05:00, the firing on the non-trading day 10 (previous day
trading, next trading day two days ahead) still writes the buffered
data instead of discarding it, so the claim that the flush happens
only before 05:00 is false. -/
theorem c3_counterexample :
    envC3.isTradingDay 10 = false ∧
    envC3.isTradingDay 9 = true ∧
    envC3.nextTradingDay 10 = 12 ∧
    ¬ (18000000 : Int) < 18000000 ∧
    (MarketWatcher.timesUp envC3 wC3 10 18000000 0).2 = [("A", [fC1])] := by
  decide

/-- C5 (amended): on a login whose reported trading day differs from
the recorded one, the epoch is set and the validator table is rebuilt
against the new epoch, but the scheduler tables are left unchanged;
on a subscription change the scheduler tables are rebuilt only when
persistence is enabled and the validator table is rebuilt only when
logged in. -/
theorem c5_rebuild_triggers (env : Env) (w : MarketWatcher) (day : String)
    (instruments : List String) :
    (w.currentTradingDay ≠ day →
      (MarketWatcher.handleUserLogin env w day).mapTime =
        TimeMapper.setTradingDay env w.mapTime day ∧
      (MarketWatcher.handleUserLogin env w day).timeValidators =
        setupTimeValidatorsFn env w.subscribeSet
          (TimeMapper.setTradingDay env w.mapTime day) w.earliestTime ∧
      (MarketWatcher.handleUserLogin env w day).currentTradingDay = day ∧
      (MarketWatcher.handleUserLogin env w day).instrumentsToProcess =
        w.instrumentsToProcess ∧
      (MarketWatcher.handleUserLogin env w day).saveBarTimePoints =
        w.saveBarTimePoints) ∧
    (w.saveDepthMarketData = true →
      (MarketWatcher.subscribeInstruments env w instruments).instrumentsToProcess =
        (setupTimersFn env (insertAll w.subscribeSet instruments)).groups ∧
      (MarketWatcher.subscribeInstruments env w instruments).saveBarTimePoints =
        (setupTimersFn env (insertAll w.subscribeSet instruments)).points) ∧
    (w.saveDepthMarketData = false →
      (MarketWatcher.subscribeInstruments env w instruments).instrumentsToProcess =
        w.instrumentsToProcess ∧
      (MarketWatcher.subscribeInstruments env w instruments).saveBarTimePoints =
        w.saveBarTimePoints) ∧
    (w.loggedIn = true →
      (MarketWatcher.subscribeInstruments env w instruments).timeValidators =
        setupTimeValidatorsFn env (insertAll w.subscribeSet instruments)
          w.mapTime w.earliestTime) ∧
    (w.loggedIn = false →
      (MarketWatcher.subscribeInstruments env w instruments).timeValidators =
        w.timeValidators) := by
  refine ⟨?_, ?_, ?_, ?_, ?_⟩
  · intro hday
    unfold MarketWatcher.handleUserLogin
    rw [if_pos hday]
    exact ⟨rfl, rfl, rfl, rfl, rfl⟩
  · intro hsave
    unfold MarketWatcher.subscribeInstruments MarketWatcher.setupTimers
      MarketWatcher.setupTimeValidators
    simp only [hsave, if_true]
    by_cases hl : w.loggedIn <;> simp [hl]
  · intro hsave
    unfold MarketWatcher.subscribeInstruments MarketWatcher.setupTimers
      MarketWatcher.setupTimeValidators
    simp only [hsave]
    by_cases hl : w.loggedIn <;> simp [hl]
  · intro hl
    unfold MarketWatcher.subscribeInstruments MarketWatcher.setupTimers
      MarketWatcher.setupTimeValidators
    by_cases hsave : w.saveDepthMarketData <;> simp [hsave, hl]
  · intro hl
    unfold MarketWatcher.subscribeInstruments MarketWatcher.setupTimers
      MarketWatcher.setupTimeValidators
    by_cases hsave : w.saveDepthMarketData <;> simp [hsave, hl]

/-- C5 witness: a login with a changed trading day records the new
day, and a subscription change with persistence enabled and logged in
rebuilds both tables. -/
theorem c5_witness :
    (MarketWatcher.handleUserLogin envW4 wC5 "new").currentTradingDay = "new" ∧
    (MarketWatcher.subscribeInstruments envW4 wC5 ["B"]).saveBarTimePoints =
      (setupTimersFn envW4 (insertAll wC5.subscribeSet ["B"])).points ∧
    (MarketWatcher.subscribeInstruments envW4 wC5 ["B"]).timeValidators =
      setupTimeValidatorsFn envW4 (insertAll wC5.subscribeSet ["B"])
        wC5.mapTime wC5.earliestTime :=
  ⟨((c5_rebuild_triggers envW4 wC5 "new" ["B"]).1 (by decide)).2.2.1,
    ((c5_rebuild_triggers envW4 wC5 "new" ["B"]).2.1 (by decide)).2,
    (c5_rebuild_triggers envW4 wC5 "new" ["B"]).2.2.2.1 (by decide)⟩

/-- C5 counterexample: a watcher with a stale empty scheduler table
logs in with a changed trading day; a rebuild of the scheduler table
from the current subscription set would arm the point 160, yet after
the login the armed points are still empty, so the claim that the
scheduler table is rebuilt on a trading-day change is false. -/
theorem c5_counterexample :
    wC5.currentTradingDay ≠ "new" ∧
    (MarketWatcher.handleUserLogin envW4 wC5 "new").saveBarTimePoints = [] ∧
    (setupTimersFn envW4 wC5.subscribeSet).points = [160] := by
  decide

/-- C9: a scheduler firing on a trading day clears the buffer of
every instrument in the fired group, writes every non-empty one of
those buffers, and leaves the buffer of every instrument outside the
group unchanged; everything written comes from the group and is
non-empty. -/
theorem c9_flush_frame (env : Env) (w : MarketWatcher) (today nowMs : Int) (index : Nat)
    (h : env.isTradingDay today = true) :
    (∀ i, i ∈ w.instrumentsToProcess.getD index [] →
      getBuf (MarketWatcher.timesUp env w today nowMs index).1.depthMarketDataListMap i =
        []) ∧
    (∀ i, i ∉ w.instrumentsToProcess.getD index [] →
      getBuf (MarketWatcher.timesUp env w today nowMs index).1.depthMarketDataListMap i =
        getBuf w.depthMarketDataListMap i) ∧
    (∀ i, i ∈ w.instrumentsToProcess.getD index [] →
      getBuf w.depthMarketDataListMap i ≠ [] →
      (i, getBuf w.depthMarketDataListMap i) ∈
        (MarketWatcher.timesUp env w today nowMs index).2) ∧
    (∀ p, p ∈ (MarketWatcher.timesUp env w today nowMs index).2 →
      p.1 ∈ w.instrumentsToProcess.getD index [] ∧ p.2 ≠ []) := by
  have ht : MarketWatcher.timesUp env w today nowMs index =
      MarketWatcher.flushGroup w index := by
    unfold MarketWatcher.timesUp
    rw [if_neg ?_]
    simp [h]
  rw [ht]
  unfold MarketWatcher.flushGroup
  obtain ⟨h1, h2, h3, h4⟩ :=
    flushLoop_spec (w.instrumentsToProcess.getD index []) w.depthMarketDataListMap
  exact ⟨h1, h2, h3, h4⟩

/-- C9 witness: firing group 0 on a trading day clears and writes the
buffer of instrument A in the group and leaves instrument C outside
the group untouched. -/
theorem c9_witness :
    getBuf (MarketWatcher.timesUp baseEnv wC9 1 0 0).1.depthMarketDataListMap "A" = [] ∧
    getBuf (MarketWatcher.timesUp baseEnv wC9 1 0 0).1.depthMarketDataListMap "C" =
      getBuf wC9.depthMarketDataListMap "C" ∧
    ("A", getBuf wC9.depthMarketDataListMap "A") ∈
      (MarketWatcher.timesUp baseEnv wC9 1 0 0).2 :=
  ⟨(c9_flush_frame baseEnv wC9 1 0 0 (by decide)).1 "A" (by decide),
    (c9_flush_frame baseEnv wC9 1 0 0 (by decide)).2.1 "C" (by decide),
    (c9_flush_frame baseEnv wC9 1 0 0 (by decide)).2.2.1 "A" (by decide) (by decide)⟩

/-- C10 (amended): a tick emits newMarketData exactly when a
validator exists for its instrument and validates it to a strictly
positive final timestamp; every emitted timestamp is strictly
positive; a rejected tick leaves all buffers unchanged; with
persistence disabled no buffer is ever modified; and with persistence
enabled an accepted tick is appended, stamped with the elapsed local
time, to exactly the buffer of its own instrument. -/
theorem c10_emit_iff (w : MarketWatcher) (f : DepthMarketDataField) :
    ((processDepthMarketData w f).2.isSome = true ↔
      ∃ v, lookupV w.timeValidators f.instrumentID = some v ∧
        0 < (v.validate (w.mapTime.mapSod (tickSec f)) f.updateMillisec).1) ∧
    (∀ e, (processDepthMarketData w f).2 = some e → 0 < e.time) ∧
    ((processDepthMarketData w f).2 = none →
      (processDepthMarketData w f).1.depthMarketDataListMap =
        w.depthMarketDataListMap) ∧
    (w.saveDepthMarketData = false →
      (processDepthMarketData w f).1.depthMarketDataListMap =
        w.depthMarketDataListMap) ∧
    (∀ e, (processDepthMarketData w f).2 = some e → w.saveDepthMarketData = true →
      getBuf (processDepthMarketData w f).1.depthMarketDataListMap f.instrumentID =
        getBuf w.depthMarketDataListMap f.instrumentID ++
          [{ f with actionDay := w.elapsedMs }] ∧
      ∀ j, j ≠ f.instrumentID →
        getBuf (processDepthMarketData w f).1.depthMarketDataListMap j =
          getBuf w.depthMarketDataListMap j) := by
  cases hl : lookupV w.timeValidators f.instrumentID with
  | none =>
    rw [process_none w f hl]
    refine ⟨?_, ?_, ?_, ?_, ?_⟩
    · simp [hl]
    · intro e he
      simp at he
    · intro
      rfl
    · intro
      rfl
    · intro e he
      simp at he
  | some v =>
    unfold processDepthMarketData
    simp only [hl]
    split_ifs with hpos hsave
    · refine ⟨?_, ?_, ?_, ?_, ?_⟩
      · simp only [Option.isSome_some, true_iff]
        exact ⟨v, rfl, hpos⟩
      · intro e he
        simp at he
        subst he
        exact hpos
      · intro he
        simp at he
      · intro hns
        rw [hsave] at hns
        cases hns
      · intro e he hst
        constructor
        · show getBuf (setBuf w.depthMarketDataListMap f.instrumentID
              (getBuf w.depthMarketDataListMap f.instrumentID ++
                [{ f with actionDay := w.elapsedMs }])) f.instrumentID = _
          exact getBuf_setBuf_self _ _ _
        · intro j hj
          show getBuf (setBuf w.depthMarketDataListMap f.instrumentID
              (getBuf w.depthMarketDataListMap f.instrumentID ++
                [{ f with actionDay := w.elapsedMs }])) j = _
          exact getBuf_setBuf_ne _ _ _ j hj
    · refine ⟨?_, ?_, ?_, ?_, ?_⟩
      · simp only [Option.isSome_some, true_iff]
        exact ⟨v, rfl, hpos⟩
      · intro e he
        simp at he
        subst he
        exact hpos
      · intro he
        simp at he
      · intro
        rfl
      · intro e he hst
        rw [hst] at hsave
        cases hsave rfl
    · refine ⟨?_, ?_, ?_, ?_, ?_⟩
      · simp only [Option.isSome_none]
        constructor
        · intro hfalse
          exact Bool.noConfusion hfalse
        · rintro ⟨v2, hv2, hp2⟩
          have hv2e := Option.some.inj hv2
          subst hv2e
          exact absurd hp2 hpos
      · intro e he
        simp at he
      · intro
        rfl
      · intro
        rfl
      · intro e he
        simp at he

/-- C10 witness: with persistence enabled an accepted tick is emitted
and appended to the buffer of its instrument stamped with the elapsed
time, and the emitted timestamp is strictly positive. -/
theorem c10_witness :
    getBuf (processDepthMarketData wC10s fC1).1.depthMarketDataListMap "A" =
      getBuf wC10s.depthMarketDataListMap "A" ++ [{ fC1 with actionDay := 777 }] ∧
    (0 : Int) < eC1.time :=
  ⟨((c10_emit_iff wC10s fC1).2.2.2.2 eC1 (by decide) (by decide)).1,
    (c10_emit_iff wC10s fC1).2.1 eC1 (by decide)⟩

/-- C10 counterexample: with persistence disabled a tick is accepted
and emitted, yet nothing is appended to any buffer, so the claim that
acceptance alone implies the tick is appended to the save buffer is
false. -/
theorem c10_counterexample :
    (processDepthMarketData wC1 fC1).2 = some eC1 ∧
    wC1.saveDepthMarketData = false ∧
    (processDepthMarketData wC1 fC1).1.depthMarketDataListMap =
      wC1.depthMarketDataListMap := by
  decide

end MarketWatcherModel
